import Mathlib

/-!
# Verification of the truffleHog scanning-pipeline specification

A shallow embedding, in Lean 4, of the parts of the truffleHog source that the
frozen claims C1–C10 are about, together with theorems settling each claim.

Conventions used throughout:
* machine bytes are modelled as `Nat` (Go `[]byte` becomes `List Nat`); Go
  strings over ASCII are modelled as `String` / `List Char` where convenient;
* fallible Go code returns `Option` / `Except`;
* stateful Go code (mutation through pointers) is modelled by explicit state
  passing: a Go method that mutates its receiver becomes a Lean function
  returning the new state.
-/

namespace TruffleHog

/-! ## BufferedFileWriter (pkg/writers/bufferedfilewriter)

Embedding of `BufferedFileWriter` from the source: `New`, `Write`, `Close` and
`ReadCloser`.  The temporary spill file is modelled as `Option (List Nat)`
(`none` until `os.CreateTemp` is called, `some contents` afterwards); the
in-memory `bytes.Buffer` is the list `buf`.  Logging, the buffer pool and
I/O errors (always absent in the model) are elided. -/

namespace BufferedFileWriter

/-- State of a `BufferedFileWriter`: threshold for switching to file writing,
total size of the data written, in-memory buffer, and the temp file
(`none` while no file has been created). -/
structure Writer where
  threshold : Nat
  size : Nat
  buf : List Nat
  file : Option (List Nat)
  deriving Repr, DecidableEq

/-- `const defaultThreshold = 10 * 1024 * 1024 // 10MB` -/
def defaultThreshold : Nat := 10 * 1024 * 1024

/-- `New` with `WithThreshold threshold` applied. -/
def new (threshold : Nat) : Writer :=
  { threshold := threshold, size := 0, buf := [], file := none }

/-- `BufferedFileWriter.Write`: if the buffered length plus the incoming size
stays within the threshold, append to the in-memory buffer; otherwise, on the
first overflow create the temp file and move the buffered bytes into it, then
write the incoming data to the file. -/
def write (w : Writer) (data : List Nat) : Writer :=
  let size := data.length
  if w.buf.length + size ≤ w.threshold then
    { w with buf := w.buf ++ data, size := w.size + size }
  else
    match w.file with
    | none => { w with file := some (w.buf ++ data), buf := [], size := w.size + size }
    | some f => { w with file := some (f ++ data), size := w.size + size }

/-- `BufferedFileWriter.Close`: flush any remaining buffered bytes to the file
when a file exists; a writer that never spilled is left untouched. -/
def close (w : Writer) : Writer :=
  match w.file with
  | none => w
  | some f => if w.buf.length > 0 then { w with file := some (f ++ w.buf) } else w

/-- `BufferedFileWriter.ReadCloser`: the bytes the returned reader yields —
the file contents when a file exists, the in-memory buffer otherwise. -/
def readCloser (w : Writer) : List Nat :=
  match w.file with
  | some f => f
  | none => w.buf

/-- A sequence of `Write` calls, in order. -/
def writeAll (w : Writer) (ds : List (List Nat)) : Writer :=
  ds.foldl write w

/-- Total length of a sequence of write payloads. -/
def sumLen (ds : List (List Nat)) : Nat :=
  (ds.map List.length).sum

@[simp] theorem writeAll_nil (w : Writer) : writeAll w [] = w := rfl

@[simp] theorem writeAll_cons (w : Writer) (d : List Nat) (ds : List (List Nat)) :
    writeAll w (d :: ds) = writeAll (write w d) ds := rfl

@[simp] theorem sumLen_nil : sumLen [] = 0 := rfl

@[simp] theorem sumLen_cons (d : List Nat) (ds : List (List Nat)) :
    sumLen (d :: ds) = d.length + sumLen ds := rfl

/-- While the cumulative size stays within the threshold, every write lands in
the in-memory buffer: no file is created and the buffer is the concatenation
of everything written. -/
theorem writeAll_in_buffer (ds : List (List Nat)) :
    ∀ w : Writer, w.file = none → w.buf.length + sumLen ds ≤ w.threshold →
      (writeAll w ds).file = none ∧
      (writeAll w ds).buf = w.buf ++ ds.flatten ∧
      (writeAll w ds).threshold = w.threshold := by
  induction ds with
  | nil => intro w hf _; simp [hf]
  | cons d ds ih =>
    intro w hf hle
    have hfit : w.buf.length + d.length ≤ w.threshold := by
      have := hle
      simp only [sumLen_cons] at this
      omega
    have hw : write w d = { w with buf := w.buf ++ d, size := w.size + d.length } := by
      simp [write, hfit]
    rw [writeAll_cons, hw]
    have := ih { w with buf := w.buf ++ d, size := w.size + d.length } (by simpa using hf)
      (by simp only [List.length_append, sumLen_cons] at hle ⊢; omega)
    simpa using this

/-- The state reached after writes totalling at most the threshold. -/
theorem writeAll_new_in_buffer (T : Nat) (ds : List (List Nat)) (h : sumLen ds ≤ T) :
    (writeAll (new T) ds).file = none ∧ (writeAll (new T) ds).buf = ds.flatten ∧
    (writeAll (new T) ds).threshold = T := by
  simpa [new] using writeAll_in_buffer ds (new T) rfl (by simpa [new] using h)

end BufferedFileWriter

open BufferedFileWriter in
/-- C6: with threshold `T`, writes whose cumulative size stays at or below `T`
all land in the in-memory buffer and no temporary file is created; the first
write that would push the buffered total beyond `T` creates the file,
transfers the buffered bytes into it, and writes the incoming data to the
file (leaving the buffer empty).  In particular a total of exactly `T` bytes
does not spill and one further byte does. -/
theorem claim_C6_bufferedfilewriter_threshold (T : Nat) (ds : List (List Nat)) (d : List Nat) :
    (sumLen ds ≤ T →
      (writeAll (new T) ds).file = none ∧ (writeAll (new T) ds).buf = ds.flatten) ∧
    (sumLen ds ≤ T → T < sumLen ds + d.length →
      (writeAll (new T) (ds ++ [d])).file = some (ds.flatten ++ d) ∧
      (writeAll (new T) (ds ++ [d])).buf = []) := by
  constructor
  · intro h
    exact ⟨(writeAll_new_in_buffer T ds h).1, (writeAll_new_in_buffer T ds h).2.1⟩
  · intro h hover
    obtain ⟨hfile, hbuf, hthr⟩ := writeAll_new_in_buffer T ds h
    have hflat : ds.flatten.length = sumLen ds := by
      simp [sumLen, List.length_flatten]
    have hsplit : writeAll (new T) (ds ++ [d]) = write (writeAll (new T) ds) d := by
      simp [writeAll, List.foldl_append]
    rw [hsplit, write]
    simp only [hfile, hbuf, hthr]
    have hgt : ¬ ((ds.map List.length).sum + d.length ≤ T) := by
      simp only [sumLen] at hover; omega
    simp [hgt]

open BufferedFileWriter in
/-- Witness for C6 at the threshold boundary: with `T = 4`, writes totalling
exactly 4 bytes stay in memory, and one further byte spills everything to the
temp file. -/
theorem claim_C6_bufferedfilewriter_threshold_witness :
    ((writeAll (new 4) [[1, 2], [3, 4]]).file = none ∧
      (writeAll (new 4) [[1, 2], [3, 4]]).buf = [1, 2, 3, 4]) ∧
    ((writeAll (new 4) [[1, 2], [3, 4], [5]]).file = some [1, 2, 3, 4, 5] ∧
      (writeAll (new 4) [[1, 2], [3, 4], [5]]).buf = []) := by
  refine ⟨?_, ?_⟩
  · have h := (claim_C6_bufferedfilewriter_threshold 4 [[1, 2], [3, 4]] [5]).1 (by decide)
    simpa using h
  · have h := (claim_C6_bufferedfilewriter_threshold 4 [[1, 2], [3, 4]] [5]).2
      (by decide) (by decide)
    simpa using h

open BufferedFileWriter in
/-- C10 fails on the code: writing 11 bytes (spills), then 5 bytes (buffered
again), then 11 bytes (appended directly to the file while the 5 bytes are
still buffered) and closing yields the bytes out of order — the reader
returns the first and third payloads followed by the second, not the
concatenation in write order. -/
theorem claim_C10_roundtrip_counterexample :
    readCloser (close (writeAll (new 10)
        [List.replicate 11 0, List.replicate 5 1, List.replicate 11 2]))
      = List.replicate 11 0 ++ List.replicate 11 2 ++ List.replicate 5 1 ∧
    readCloser (close (writeAll (new 10)
        [List.replicate 11 0, List.replicate 5 1, List.replicate 11 2]))
      ≠ ([List.replicate 11 0, List.replicate 5 1, List.replicate 11 2] :
          List (List Nat)).flatten := by
  decide

/-! ## CLI surface (main.go)

Embedding of the pieces of `main.go` the claims are about: the pinning of
source-adapter concurrency under `--since-commit`, the `--results` filter
parser, and the exit-code discipline of `run` / `logFatalFunc`. -/

/-- ASCII lowercasing of one character (the model of Go's `strings.ToLower` /
`bytes.ToLower`; every constant the embedded code compares against is ASCII). -/
def toLowerChar (c : Char) : Char :=
  if 'A' ≤ c ∧ c ≤ 'Z' then Char.ofNat (c.toNat + 32) else c

/-- Lowercase a character list. -/
def lowerAscii (l : List Char) : List Char := l.map toLowerChar

/-- Boolean contiguous-occurrence test: does `a` occur as a contiguous
segment of `b`?  (The model of Go's `strings.Contains` / an unanchored
pattern hit.) -/
def isInfixB (a : List Char) : List Char → Bool
  | [] => a.isEmpty
  | c :: rest => a.isPrefixOf (c :: rest) || isInfixB a rest

theorem isInfixB_iff (a b : List Char) : isInfixB a b = true ↔ a <:+: b := by
  induction b with
  | nil => simp [isInfixB, List.isEmpty_iff]
  | cons c rest ih => simp [isInfixB, List.infix_cons_iff, ih, List.isPrefixOf_iff_prefix]

namespace Main

/-- `if *gitScanSinceCommit != "" { *concurrency = 1 }`: the concurrency the
scan actually uses, given the `--since-commit` flag value and the requested
`--concurrency`. -/
def effectiveConcurrency (gitScanSinceCommit : String) (concurrency : Nat) : Nat :=
  if gitScanSinceCommit ≠ "" then 1 else concurrency

/-- `strings.Split(s, ",")`, on character lists: `splitCommaAux rest cur`
splits `rest` given the reversed current field `cur`. -/
def splitCommaAux : List Char → List Char → List (List Char)
  | [], cur => [cur.reverse]
  | c :: rest, cur =>
    if c = ',' then cur.reverse :: splitCommaAux rest [] else splitCommaAux rest (c :: cur)

/-- `strings.Split(s, ",")`. -/
def splitComma (l : List Char) : List (List Char) := splitCommaAux l []

/-- The valid `--results` values of `parseResults`'s `switch`. -/
def validResultValues : List (List Char) :=
  ["verified".data, "unknown".data, "unverified".data, "filtered_unverified".data]

/-- The `for _, value := range values` loop of `parseResults`: collect valid
values, stop with an error on the first invalid one. -/
def parseResultsLoop : List (List Char) → Except String (List (List Char))
  | [] => .ok []
  | v :: rest =>
    if v ∈ validResultValues then
      match parseResultsLoop rest with
      | .ok acc => .ok (v :: acc)
      | .error e => .error e
    else
      .error ("invalid value " ++ String.mk v)

/-- `parseResults`: empty input means no restriction (`none`); otherwise the
input is lowercased, split on commas, and every item must be a valid result
category. -/
def parseResults (input : String) : Except String (Option (List (List Char))) :=
  if input = "" then .ok none
  else (parseResultsLoop (splitComma (TruffleHog.lowerAscii input.data))).map some

/-- Whether an `Except` value is a success. -/
def isOk {ε α : Type} : Except ε α → Bool
  | .ok _ => true
  | .error _ => false

/-- Modelled from the spec: `Engine.HasFoundResults` is not under `src/` (only
its caller in `main.go` is); per the spec's normative choice, it reports
whether an emitted (post-results-filter) finding exists. -/
def hasFoundResults (emittedFindings : List Nat) : Bool :=
  !emittedFindings.isEmpty

/-- Exit-code discipline of `run` combined with `logFatalFunc`: an internal
error exits 1 (`logFatal` with a non-nil error); otherwise
`if metrics.hasFoundResults && *fail { os.Exit(183) }`, and falling off the
end of `main` exits 0. -/
def exitCode (internalError : Bool) (emittedFindings : List Nat) (fail : Bool) : Nat :=
  if internalError then 1
  else if hasFoundResults emittedFindings && fail then 183
  else 0

theorem parseResultsLoop_ok_iff (vs : List (List Char)) :
    isOk (parseResultsLoop vs) = true ↔ ∀ v ∈ vs, v ∈ validResultValues := by
  induction vs with
  | nil => simp [parseResultsLoop, isOk]
  | cons v rest ih =>
    by_cases hv : v ∈ validResultValues
    · cases hrec : parseResultsLoop rest with
      | ok acc => simp_all [parseResultsLoop, isOk]
      | error e => simp_all [parseResultsLoop, isOk]
    · simp_all [parseResultsLoop, isOk]

end Main

/-- C8: whenever a base commit (`--since-commit`) is set, the source-adapter
concurrency used for the scan is 1, whatever concurrency was requested. -/
theorem claim_C8_since_commit_pins_concurrency
    (sinceCommit : String) (concurrency : Nat) (h : sinceCommit ≠ "") :
    Main.effectiveConcurrency sinceCommit concurrency = 1 := by
  simp [Main.effectiveConcurrency, h]

/-- Witness for C8: a concrete since-commit with requested concurrency 8. -/
theorem claim_C8_since_commit_pins_concurrency_witness :
    ("deadbeef" : String) ≠ "" ∧ Main.effectiveConcurrency "deadbeef" 8 = 1 :=
  ⟨by decide, claim_C8_since_commit_pins_concurrency "deadbeef" 8 (by decide)⟩

/-- C9: `--results` parsing succeeds on non-empty input exactly when every
comma-separated item of the lowercased input is one of `verified`, `unknown`,
`unverified`, `filtered_unverified`; empty input succeeds with no restriction. -/
theorem claim_C9_parse_results (input : String) :
    (input = "" → Main.parseResults input = .ok none) ∧
    (input ≠ "" →
      (Main.isOk (Main.parseResults input) = true ↔
        ∀ v ∈ Main.splitComma (TruffleHog.lowerAscii input.data), v ∈ Main.validResultValues)) := by
  constructor
  · intro h; simp [Main.parseResults, h]
  · intro h
    have hne : ¬ (input = "") := h
    rw [Main.parseResults, if_neg hne]
    rw [← Main.parseResultsLoop_ok_iff]
    cases Main.parseResultsLoop (Main.splitComma (TruffleHog.lowerAscii input.data)) <;>
      simp [Main.isOk, Except.map]

/-- Witness for C9: the empty input yields no restriction; a mixed-case valid
input parses; an input with an invalid item does not. -/
theorem claim_C9_parse_results_witness :
    Main.parseResults "" = .ok none ∧
    Main.isOk (Main.parseResults "Verified,UNKNOWN") = true ∧
    Main.isOk (Main.parseResults "verified,bogus") = false := by
  refine ⟨(claim_C9_parse_results "").1 rfl, ?_, ?_⟩
  · exact ((claim_C9_parse_results "Verified,UNKNOWN").2 (by decide)).mpr (by decide)
  · have h := (claim_C9_parse_results "verified,bogus").2 (by decide)
    by_contra hc
    have : Main.isOk (Main.parseResults "verified,bogus") = true := by
      revert hc; cases Main.isOk (Main.parseResults "verified,bogus") <;> simp
    exact absurd (h.mp this) (by decide)

/-- C3: the process exits 183 exactly when no internal error occurred, an
emitted (post-results-filter) finding exists, and `--fail` was requested; it
exits 1 on an internal error and 0 otherwise. -/
theorem claim_C3_exit_codes (internalError : Bool) (emitted : List Nat) (fail : Bool) :
    (Main.exitCode internalError emitted fail = 183 ↔
      internalError = false ∧ emitted ≠ [] ∧ fail = true) ∧
    (internalError = true → Main.exitCode internalError emitted fail = 1) ∧
    (internalError = false → ¬ (emitted ≠ [] ∧ fail = true) →
      Main.exitCode internalError emitted fail = 0) := by
  cases internalError <;> cases fail <;> cases emitted <;>
    simp [Main.exitCode, Main.hasFoundResults]

/-- Witness for C3: one finding with `--fail` set and no internal error exits
183; an internal error exits 1; no findings exits 0. -/
theorem claim_C3_exit_codes_witness :
    Main.exitCode false [7] true = 183 ∧
    Main.exitCode true [7] true = 1 ∧
    Main.exitCode false [] true = 0 := by
  refine ⟨?_, ?_, ?_⟩
  · exact (claim_C3_exit_codes false [7] true).1.mpr ⟨rfl, by decide, rfl⟩
  · exact (claim_C3_exit_codes true [7] true).2.1 rfl
  · exact (claim_C3_exit_codes false [] true).2.2 rfl (by decide)

/-! ## Engine (pkg/engine)

The engine implementation itself (`shouldVerifyChunk`, `likelyDuplicate`, the
Aho-Corasick prefilter) is not among the source files under `src/`; only its
tests (`TestEngine_ShouldVerifyChunk`, `TestLikelyDuplicate`) and callers are.
The definitions below are therefore modelled from the spec, and are checked
against the concrete rows of those tests. -/

namespace Engine

/-- `config.DetectorID` / `DetectorKey`: a detector type (abstract numeric
code) together with a version; version 0 is the wildcard / versionless form. -/
structure DetectorID where
  id : Nat
  version : Nat
  deriving Repr, DecidableEq

/-- Lookup in the override map, modelled as an association list. -/
def lookupOverride : List (DetectorID × Bool) → DetectorID → Option Bool
  | [], _ => none
  | (k', b) :: rest, k => if k' = k then some b else lookupOverride rest k

/-- Modelled from the spec: `Engine.shouldVerifyChunk` is not under `src/`
(only `TestEngine_ShouldVerifyChunk` is).  Per the spec, a detector override
map keyed by `DetectorKey` — exact-version or wildcard — forces verification
on or off for the detector, overriding the chunk's global `verify` flag;
with no matching entry the chunk's flag decides. -/
def shouldVerifyChunk (sourceVerify : Bool) (det : DetectorID)
    (overrides : List (DetectorID × Bool)) : Bool :=
  match lookupOverride overrides det with
  | some b => b
  | none =>
    match lookupOverride overrides ⟨det.id, 0⟩ with
    | some b => b
    | none => sourceVerify

/-- `chunkSecretKey`: the raw secret paired with the detector key, the unit of
within-chunk deduplication. -/
structure ChunkSecretKey where
  secret : List Char
  detectorKey : DetectorID
  deriving Repr, DecidableEq

/-- A delimiter character, for the similarity comparison: anything that is not
alphanumeric. -/
def isDelim (c : Char) : Bool := !c.isAlphanum

/-- Trim delimiter characters from both ends. -/
def trimDelims (l : List Char) : List Char :=
  ((l.dropWhile isDelim).reverse.dropWhile isDelim).reverse

/-- The small constant bounding the length difference of similar raws.  The
value 5 is consistent with the rows of `TestLikelyDuplicate`: a difference of
5 (a stripped `PMAK-` prefix) must be admitted and a difference of 21
(`short` vs `muchlongerthanthevalstring`) rejected. -/
def lengthDiffBound : Nat := 5

/-- The bounded similarity relation on raw secrets: length difference at most
`lengthDiffBound` and one string a contiguous substring of the other after
trimming delimiter characters. -/
def similarSecrets (a b : List Char) : Bool :=
  (max a.length b.length - min a.length b.length ≤ lengthDiffBound) &&
  (isInfixB (trimDelims a) (trimDelims b) || isInfixB (trimDelims b) (trimDelims a))

/-- Modelled from the spec: `likelyDuplicate` is not under `src/` (only
`TestLikelyDuplicate` is).  A candidate is a duplicate of a stored secret when
it has the same detector key and identical raw, or a different detector key
and a raw within the bounded similarity relation. -/
def likelyDuplicate (val : ChunkSecretKey) (dupes : List ChunkSecretKey) : Bool :=
  dupes.any fun d =>
    (d.detectorKey == val.detectorKey && d.secret == val.secret) ||
    (d.detectorKey != val.detectorKey && similarSecrets val.secret d.secret)

/-- A detector as the keyword prefilter sees it: its key and its `keywords()`. -/
structure KeywordDetector where
  key : DetectorID
  keywords : List (List Char)
  deriving Repr, DecidableEq

/-- Does at least one of the detector's keywords occur (case-insensitively)
somewhere in the chunk data? -/
def matchesChunk (d : KeywordDetector) (data : List Char) : Bool :=
  d.keywords.any fun kw => isInfixB (lowerAscii kw) (lowerAscii data)

/-- Modelled from the spec: the Aho-Corasick core
(`pkg/engine/ahocorasick.FindDetectorMatches`) is not under `src/` (only its
callers in detector tests are).  Per §4.2, it returns, insertion-stably, the
detectors whose keyword set intersects the content case-insensitively. -/
def findDetectorMatches (ds : List KeywordDetector) (data : List Char) :
    List KeywordDetector :=
  ds.filter (fun d => matchesChunk d data)

end Engine

/-- C7: verification of a (chunk, detector) pair is decided by an override
entry whose key matches the detector exactly (same type, same version) or as
a wildcard (same type, version 0); with no matching entry — type mismatch, or
version mismatch with a non-zero version — the chunk's verify flag decides. -/
theorem claim_C7_verify_override (sv : Bool) (det k : Engine.DetectorID) (b : Bool) :
    ((k = det ∨ k = ⟨det.id, 0⟩) → Engine.shouldVerifyChunk sv det [(k, b)] = b) ∧
    ((k.id ≠ det.id ∨ (k.version ≠ det.version ∧ k.version ≠ 0)) →
      Engine.shouldVerifyChunk sv det [(k, b)] = sv) := by
  obtain ⟨i, v⟩ := det
  constructor
  · rintro (rfl | rfl)
    · simp [Engine.shouldVerifyChunk, Engine.lookupOverride]
    · by_cases hv : v = 0
      · subst hv
        simp [Engine.shouldVerifyChunk, Engine.lookupOverride]
      · have hne : (⟨i, 0⟩ : Engine.DetectorID) ≠ ⟨i, v⟩ := by
          simp [Engine.DetectorID.mk.injEq]
          omega
        simp [Engine.shouldVerifyChunk, Engine.lookupOverride, hne]
  · intro h
    have h1 : k ≠ ⟨i, v⟩ := by
      rcases h with h | ⟨h, _⟩ <;>
        · intro hcontra; subst hcontra; simp at h
    have h2 : k ≠ ⟨i, 0⟩ := by
      rcases h with h | ⟨_, h⟩ <;>
        · intro hcontra; subst hcontra; simp at h
    simp [Engine.shouldVerifyChunk, Engine.lookupOverride, h1, h2]

/-- Witness for C7, mirroring the four rows of `TestEngine_ShouldVerifyChunk`
with the Gitlab v2 detector: an exact-version override and a wildcard override
force the override value; a type mismatch and a non-zero version mismatch
leave the chunk's flag in force. -/
theorem claim_C7_verify_override_witness :
    Engine.shouldVerifyChunk false ⟨15, 2⟩ [(⟨15, 2⟩, true)] = true ∧
    Engine.shouldVerifyChunk false ⟨15, 2⟩ [(⟨15, 0⟩, true)] = true ∧
    Engine.shouldVerifyChunk false ⟨15, 2⟩ [(⟨13, 2⟩, true)] = false ∧
    Engine.shouldVerifyChunk false ⟨15, 2⟩ [(⟨15, 1⟩, true)] = false := by
  refine ⟨?_, ?_, ?_, ?_⟩
  · exact (claim_C7_verify_override false ⟨15, 2⟩ ⟨15, 2⟩ true).1 (Or.inl rfl)
  · exact (claim_C7_verify_override false ⟨15, 2⟩ ⟨15, 0⟩ true).1 (Or.inr rfl)
  · exact (claim_C7_verify_override false ⟨15, 2⟩ ⟨13, 2⟩ true).2 (Or.inl (by decide))
  · exact (claim_C7_verify_override false ⟨15, 2⟩ ⟨15, 1⟩ true).2 (Or.inr (by decide))

/-- C4: within a chunk's fan-out, a candidate is judged a duplicate of a
stored secret exactly when some stored secret has the same detector key and
identical raw bytes, or a different detector key and a raw within the bounded
similarity relation; a merely similar but non-identical raw under the same
detector key is never a duplicate. -/
theorem claim_C4_likely_duplicate (val : Engine.ChunkSecretKey)
    (dupes : List Engine.ChunkSecretKey) :
    (Engine.likelyDuplicate val dupes = true ↔
      ∃ d ∈ dupes,
        (d.detectorKey = val.detectorKey ∧ d.secret = val.secret) ∨
        (d.detectorKey ≠ val.detectorKey ∧ Engine.similarSecrets val.secret d.secret = true)) ∧
    (∀ d : Engine.ChunkSecretKey, d.detectorKey = val.detectorKey →
      d.secret ≠ val.secret → Engine.likelyDuplicate val [d] = false) := by
  constructor
  · simp only [Engine.likelyDuplicate, List.any_eq_true, Bool.or_eq_true,
      Bool.and_eq_true, beq_iff_eq, bne_iff_ne]
  · intro d hkey hsec
    simp [Engine.likelyDuplicate, hkey, hsec]

/-- Witness for C4, on rows of `TestLikelyDuplicate`: the same PMAK token
under a different detector key is a duplicate; the same token with its
`PMAK-` prefix stripped under a different key is a duplicate; the stripped
token under the same key is not. -/
theorem claim_C4_likely_duplicate_witness :
    Engine.likelyDuplicate
      ⟨"PMAK-qnwfsLyRSyfCwfpHaQP1UzDhrgpWvHjbYzjpRCMshjt417zWcrzyHUArs7r".data, ⟨0, 0⟩⟩
      [⟨"PMAK-qnwfsLyRSyfCwfpHaQP1UzDhrgpWvHjbYzjpRCMshjt417zWcrzyHUArs7r".data, ⟨1, 0⟩⟩]
      = true ∧
    Engine.likelyDuplicate
      ⟨"PMAK-qnwfsLyRSyfCwfpHaQP1UzDhrgpWvHjbYzjpRCMshjt417zWcrzyHUArs7r".data, ⟨0, 0⟩⟩
      [⟨"qnwfsLyRSyfCwfpHaQP1UzDhrgpWvHjbYzjpRCMshjt417zWcrzyHUArs7r".data, ⟨1, 0⟩⟩]
      = true ∧
    Engine.likelyDuplicate
      ⟨"PMAK-qnwfsLyRSyfCwfpHaQP1UzDhrgpWvHjbYzjpRCMshjt417zWcrzyHUArs7r".data, ⟨0, 0⟩⟩
      [⟨"qnwfsLyRSyfCwfpHaQP1UzDhrgpWvHjbYzjpRCMshjt417zWcrzyHUArs7r".data, ⟨0, 0⟩⟩]
      = false := by
  refine ⟨?_, ?_, ?_⟩
  · exact (claim_C4_likely_duplicate _ _).1.mpr
      ⟨_, List.mem_singleton.mpr rfl, Or.inr ⟨by decide, by decide⟩⟩
  · exact (claim_C4_likely_duplicate _ _).1.mpr
      ⟨_, List.mem_singleton.mpr rfl, Or.inr ⟨by decide, by decide⟩⟩
  · exact (claim_C4_likely_duplicate
      ⟨"PMAK-qnwfsLyRSyfCwfpHaQP1UzDhrgpWvHjbYzjpRCMshjt417zWcrzyHUArs7r".data, ⟨0, 0⟩⟩
      [⟨"qnwfsLyRSyfCwfpHaQP1UzDhrgpWvHjbYzjpRCMshjt417zWcrzyHUArs7r".data, ⟨0, 0⟩⟩]).2
      ⟨"qnwfsLyRSyfCwfpHaQP1UzDhrgpWvHjbYzjpRCMshjt417zWcrzyHUArs7r".data, ⟨0, 0⟩⟩
      rfl (by decide)

/-- C2: a detector is invoked on a chunk exactly when it is registered and at
least one of its keywords occurs, case-insensitively, as a contiguous
substring at some byte position of the decoded chunk data; a detector with an
empty keyword list is never invoked. -/
theorem claim_C2_keyword_prefilter (ds : List Engine.KeywordDetector)
    (data : List Char) (d : Engine.KeywordDetector) :
    (d ∈ Engine.findDetectorMatches ds data ↔
      d ∈ ds ∧ ∃ kw ∈ d.keywords, lowerAscii kw <:+: lowerAscii data) ∧
    (d.keywords = [] → d ∉ Engine.findDetectorMatches ds data) := by
  have hmem : d ∈ Engine.findDetectorMatches ds data ↔
      d ∈ ds ∧ ∃ kw ∈ d.keywords, lowerAscii kw <:+: lowerAscii data := by
    rw [Engine.findDetectorMatches, List.mem_filter]
    constructor
    · rintro ⟨hd, hmatch⟩
      refine ⟨hd, ?_⟩
      rw [Engine.matchesChunk, List.any_eq_true] at hmatch
      obtain ⟨kw, hkw, hinf⟩ := hmatch
      exact ⟨kw, hkw, (isInfixB_iff _ _).mp hinf⟩
    · rintro ⟨hd, kw, hkw, hinf⟩
      refine ⟨hd, ?_⟩
      rw [Engine.matchesChunk, List.any_eq_true]
      exact ⟨kw, hkw, (isInfixB_iff _ _).mpr hinf⟩
  refine ⟨hmem, ?_⟩
  intro hempty hin
  obtain ⟨_, kw, hkw, _⟩ := hmem.mp hin
  rw [hempty] at hkw
  exact absurd hkw (List.not_mem_nil kw)

/-- Witness for C2: with two registered detectors, the chunk
`my twilio SID=...` admits the detector keyed on `sid` (the keyword occurs
case-insensitively) and never admits a detector whose keyword list is empty. -/
theorem claim_C2_keyword_prefilter_witness :
    (⟨⟨1, 0⟩, ["sid".data]⟩ : Engine.KeywordDetector) ∈
      Engine.findDetectorMatches
        [⟨⟨1, 0⟩, ["sid".data]⟩, ⟨⟨2, 0⟩, []⟩] "my twilio SID=abc".data ∧
    (⟨⟨2, 0⟩, []⟩ : Engine.KeywordDetector) ∉
      Engine.findDetectorMatches
        [⟨⟨1, 0⟩, ["sid".data]⟩, ⟨⟨2, 0⟩, []⟩] "my twilio SID=abc".data := by
  constructor
  · exact (claim_C2_keyword_prefilter _ _ _).1.mpr
      ⟨by decide, "sid".data, by decide, by
        refine ⟨"my twilio ".data.map toLowerChar, "=abc".data.map toLowerChar, ?_⟩
        decide⟩
  · exact (claim_C2_keyword_prefilter
      [⟨⟨1, 0⟩, ["sid".data]⟩, ⟨⟨2, 0⟩, []⟩] "my twilio SID=abc".data ⟨⟨2, 0⟩, []⟩).2 rfl

/-! ## Base64 decoder (pkg/decoders/base64.go)

Embedding of `Base64.FromChunk`, `getSubstringsOfCharacterSet` and
`appendB64Substring` from the source.  Bytes are `Nat` (ASCII codes);
`base64.StdEncoding.DecodeString` is embedded for inputs drawn from the
base64 character set (the only inputs the decoder feeds it: runs of charset
bytes never contain the CR/LF bytes Go's decoder would skip).  Go's
`chunk.Data = result.Bytes(); return chunk` mutates the chunk through the
pointer and returns the same pointer; the model returns the post-call state
of the input chunk alongside the returned value. -/

namespace Decoders

/-- Membership in `b64Charset`
(`ABCDEFGHIJKLMNOPQRSTUVWXYZabcdefghijklmnopqrstuvwxyz0123456789+/=`). -/
def isB64Char (c : Nat) : Bool :=
  (65 ≤ c && c ≤ 90) || (97 ≤ c && c ≤ 122) || (48 ≤ c && c ≤ 57) ||
  c == 43 || c == 47 || c == 61

/-- Membership in `b64EndChars` (`+/=`). -/
def isEndChar (c : Nat) : Bool := c == 43 || c == 47 || c == 61

/-- `appendB64Substring`: trim `+/=` from the left of the run; if a `=`
occurs in the right-trimmed remainder, keep only what follows it. -/
def appendB64Substring (run : List Nat) : List Nat :=
  let substring := run.dropWhile isEndChar
  let inner := (substring.reverse.dropWhile isEndChar).reverse
  match inner.findIdx? (· == 61) with
  | some idx => substring.drop (idx + 1)
  | none => substring

/-- The run-collecting loop of `getSubstringsOfCharacterSet`: `cur` holds the
current run reversed; a run longer than the threshold is kept (processed by
`appendB64Substring`) when it ends. -/
def runsAux (thr : Nat) (cur : List Nat) : List Nat → List (List Nat)
  | [] => if cur.length > thr then [appendB64Substring cur.reverse] else []
  | c :: rest =>
    if isB64Char c then runsAux thr (c :: cur) rest
    else if cur.length > thr then appendB64Substring cur.reverse :: runsAux thr [] rest
    else runsAux thr [] rest

/-- `getSubstringsOfCharacterSet data threshold`. -/
def getSubstringsOfCharacterSet (data : List Nat) (thr : Nat) : List (List Nat) :=
  runsAux thr [] data

/-- Value of one base64 alphabet byte. -/
def b64Val (c : Nat) : Option Nat :=
  if 65 ≤ c ∧ c ≤ 90 then some (c - 65)
  else if 97 ≤ c ∧ c ≤ 122 then some (c - 71)
  else if 48 ≤ c ∧ c ≤ 57 then some (c + 4)
  else if c = 43 then some 62
  else if c = 47 then some 63
  else none

/-- Decode one 4-byte quantum; `final` says whether this is the last quantum,
the only position where `=` padding is legal. -/
def decodeQuantum (c1 c2 c3 c4 : Nat) (final : Bool) : Option (List Nat) :=
  match b64Val c1, b64Val c2 with
  | some v1, some v2 =>
    if c3 = 61 then
      if c4 = 61 ∧ final then some [v1 * 4 + v2 / 16] else none
    else
      match b64Val c3 with
      | some v3 =>
        if c4 = 61 then
          if final then some [v1 * 4 + v2 / 16, (v2 % 16) * 16 + v3 / 4] else none
        else
          match b64Val c4 with
          | some v4 => some [v1 * 4 + v2 / 16, (v2 % 16) * 16 + v3 / 4, (v3 % 4) * 64 + v4]
          | none => none
      | none => none
  | _, _ => none

/-- `base64.StdEncoding.DecodeString`: the input must consist of whole 4-byte
quantums; padding is legal only in the final quantum. -/
def decodeString : List Nat → Option (List Nat)
  | [] => some []
  | c1 :: c2 :: c3 :: c4 :: rest =>
    match decodeQuantum c1 c2 c3 c4 rest.isEmpty with
    | some bs =>
      match decodeString rest with
      | some tail => some (bs ++ tail)
      | none => none
    | none => none
  | _ => none

/-- Membership of a substring in the `decodedSubstrings` map: present exactly
when `DecodeString` succeeds with a non-empty result
(`err == nil && len(dec) > 0`). -/
def decOf (s : List Nat) : Option (List Nat) :=
  match decodeString s with
  | some d => if d.length > 0 then some d else none
  | none => none

/-- `bytes.Index`: index of the first occurrence of `needle`, if any. -/
def indexOfSub (needle : List Nat) : List Nat → Option Nat
  | [] => if needle.isEmpty then some 0 else none
  | c :: rest =>
    if needle.isPrefixOf (c :: rest) then some 0
    else (indexOfSub needle rest).map (· + 1)

/-- The splice loop of `FromChunk`: copy up to each decodable substring's
occurrence, emit its decoded bytes instead, and continue past it; finally
copy the tail. -/
def spliceAux (data : List Nat) (start : Nat) : List (List Nat) → List Nat
  | [] => data.drop start
  | e :: rest =>
    match decOf e with
    | none => spliceAux data start rest
    | some dec =>
      match indexOfSub e (data.drop start) with
      | none => spliceAux data start rest
      | some idx =>
        (data.drop start).take idx ++ dec ++ spliceAux data (start + idx + e.length) rest

/-- A chunk, reduced to the field the decoder touches. -/
structure Chunk where
  data : List Nat
  deriving Repr, DecidableEq

/-- `Base64.FromChunk`.  The first component is the state of the input chunk
after the call (Go mutates `chunk.Data` through the pointer); the second is
the returned value (`nil` becomes `none`; a non-nil return is the same
chunk). -/
def base64FromChunk (chunk : Chunk) : Chunk × Option Chunk :=
  let encodedSubstrings := getSubstringsOfCharacterSet chunk.data 20
  if encodedSubstrings.any (fun e => (decOf e).isSome) then
    let chunk' : Chunk := { chunk with data := spliceAux chunk.data 0 encodedSubstrings }
    (chunk', some chunk')
  else (chunk, none)

/-- 24 bytes `QUFBQUFBQUFBQUFBQUFBQUFB` (base64 of 18 `A` bytes): a single
charset run longer than the 20-byte threshold. -/
def sampleRun : List Nat := (List.replicate 6 [81, 85, 70, 66]).flatten

end Decoders

/-- C5 fails on the code: on a chunk whose data is a decodable base64 run,
`Base64.FromChunk` returns a non-nil chunk but the input chunk's data has
been rewritten in place (to the 18 decoded bytes), not left unchanged. -/
theorem claim_C5_immutability_counterexample :
    ((Decoders.base64FromChunk ⟨Decoders.sampleRun⟩).2.isSome = true) ∧
    (Decoders.base64FromChunk ⟨Decoders.sampleRun⟩).1.data = List.replicate 18 65 ∧
    (Decoders.base64FromChunk ⟨Decoders.sampleRun⟩).1.data ≠ Decoders.sampleRun := by
  decide

/-- C5 as amended: applying the Base64 decoder to a chunk either returns
`none` and leaves the input chunk untouched, or rewrites the input chunk's
data in place and returns that same (mutated) chunk rather than a fresh one —
the input chunk's data bytes are not preserved when a transform applies. -/
theorem claim_C5_decoder_in_place (c : Decoders.Chunk) :
    ((Decoders.base64FromChunk c).2 = none → (Decoders.base64FromChunk c).1 = c) ∧
    (∀ r, (Decoders.base64FromChunk c).2 = some r → r = (Decoders.base64FromChunk c).1) := by
  unfold Decoders.base64FromChunk
  by_cases h : (Decoders.getSubstringsOfCharacterSet c.data 20).any
      (fun e => (Decoders.decOf e).isSome) = true
  · rw [if_pos h]
    refine ⟨fun hcontra => ?_, fun r hr => ?_⟩
    · exact Option.noConfusion hcontra
    · exact (Option.some.inj hr).symm
  · rw [if_neg h]
    refine ⟨fun _ => rfl, fun r hr => ?_⟩
    exact Option.noConfusion hr

/-- Witness for the amended C5: a chunk with no base64 content is returned
untouched with `none`; on the sample run the returned chunk is exactly the
mutated input chunk. -/
theorem claim_C5_decoder_in_place_witness :
    (Decoders.base64FromChunk ⟨[1, 2, 3]⟩).1 = ⟨[1, 2, 3]⟩ ∧
    (Decoders.base64FromChunk ⟨Decoders.sampleRun⟩).2 =
      some (Decoders.base64FromChunk ⟨Decoders.sampleRun⟩).1 := by
  constructor
  · exact (claim_C5_decoder_in_place ⟨[1, 2, 3]⟩).1 (by decide)
  · have hsome : (Decoders.base64FromChunk ⟨Decoders.sampleRun⟩).2 =
        some ⟨List.replicate 18 65⟩ := by decide
    exact hsome.trans (congrArg some
      ((claim_C5_decoder_in_place ⟨Decoders.sampleRun⟩).2 ⟨List.replicate 18 65⟩ hsome))

/-! ## Twilio detector (pkg/detectors/twilio/twilio.go)

Embedding of `Scanner.FromData`.  The three regexes are embedded as explicit
scanners over `List Char`, with Go's `\b` as the ASCII word boundary and
`FindAllString` as the leftmost, non-overlapping scan (both patterns have
fixed width, so the scan steps past each match).  The HTTP call is an oracle
`sid → key → HttpOutcome`; `Result` keeps the fields `FromData` sets
(`ExtraData` / `AnalysisInfo`, display-only maps, are elided).
`SetVerificationError` (defined outside `src/`) records the error message. -/

namespace Detectors

/-- An ASCII word character, for Go's `\b`. -/
def isWordChar (c : Char) : Bool := c.isAlphanum || c == '_'

/-- A character of `[0-9a-f]`. -/
def isHexLower (c : Char) : Bool := c.isDigit || ('a' ≤ c && c ≤ 'f')

/-- A character of `[0-9a-f]` read case-insensitively, i.e. `[0-9a-fA-F]`. -/
def isHexCI (c : Char) : Bool := isHexLower c || ('A' ≤ c && c ≤ 'F')

/-- Is there a word boundary between the end of a match and what follows? -/
def boundaryAfterB : List Char → Bool
  | [] => true
  | c :: _ => !isWordChar c

/-- `sidPat.FindAllString`: all matches of `\bAC[0-9a-f]{32}\b`, leftmost and
non-overlapping.  `prevIsWord` records whether the previous character is a
word character (initially false: position 0 is a boundary before a word
character); the fuel is at least the length of the list. -/
def scanSid : Nat → Bool → List Char → List (List Char)
  | 0, _, _ => []
  | _ + 1, _, [] => []
  | fuel + 1, prevIsWord, 'A' :: 'C' :: rest =>
    let hex := rest.take 32
    if (!prevIsWord) && (hex.length == 32) && hex.all isHexLower &&
        boundaryAfterB (rest.drop 32) then
      ('A' :: 'C' :: hex) :: scanSid fuel true (rest.drop 32)
    else
      scanSid fuel true ('C' :: rest)
  | fuel + 1, _, c :: rest => scanSid fuel (isWordChar c) rest

/-- `keyPat.FindAllString`: all matches of `\b[0-9a-f]{32}\b`, leftmost and
non-overlapping. -/
def scanKey : Nat → Bool → List Char → List (List Char)
  | 0, _, _ => []
  | _ + 1, _, [] => []
  | fuel + 1, prevIsWord, c :: rest =>
    let cand := (c :: rest).take 32
    if (!prevIsWord) && (cand.length == 32) && cand.all isHexLower &&
        boundaryAfterB ((c :: rest).drop 32) then
      cand :: scanKey fuel true ((c :: rest).drop 32)
    else
      scanKey fuel (isWordChar c) rest

/-- The `AC[0-9a-f]{32}` tail of `identifierPat`, case-insensitively. -/
def acTail : List Char → Bool
  | a :: b :: rest =>
    (toLowerChar a == 'a') && (toLowerChar b == 'c') &&
    ((rest.take 32).length == 32) && (rest.take 32).all isHexCI
  | _ => false

/-- The `.{0,20}` gap of `identifierPat`: up to `fuel` characters, none of
them a newline, before the `AC...` tail. -/
def gapScan : Nat → List Char → Bool
  | fuel, l =>
    acTail l ||
      match fuel, l with
      | f + 1, c :: rest => (c != '\n') && gapScan f rest
      | _, _ => false

/-- A match of `identifierPat` (`(?i)sid.{0,20}AC[0-9a-f]{32}`) starting at
the head of the list. -/
def identFrom : List Char → Bool
  | a :: b :: c :: rest =>
    (toLowerChar a == 's') && (toLowerChar b == 'i') && (toLowerChar c == 'd') &&
    gapScan 20 rest
  | _ => false

/-- `len(identifierMatches) != 0`: does `identifierPat` match anywhere? -/
def identExists : List Char → Bool
  | [] => false
  | c :: rest => identFrom (c :: rest) || identExists rest

/-- Outcome of the verification HTTP call for one (sid, key) candidate:
request construction fails (`continue`), `client.Do` fails at transport
level, or a response with a status code arrives. -/
inductive HttpOutcome where
  | reqError
  | transportError
  | status (code : Nat)

/-- The fields of `detectors.Result` that `Scanner.FromData` sets. -/
structure Result where
  raw : List Char
  rawV2 : List Char
  redacted : List Char
  verified : Bool
  verificationError : Option String
  deriving Repr, DecidableEq

/-- `Scanner.FromData`: bail out unless `identifierPat` matches; then for
every (sid, key) pair of `sidPat` × `keyPat` matches build a result and, when
verification is requested, settle its `verified` / `verificationError`
fields from the HTTP outcome: 2xx verifies; 401/403 is a determinate
negative; any other status or transport failure records a verification
error; a request-construction error drops the candidate (`continue`). -/
def fromData (verify : Bool) (oracle : List Char → List Char → HttpOutcome)
    (data : List Char) : List Result :=
  if identExists data then
    let keyMatches := scanKey data.length false data
    let sidMatches := scanSid data.length false data
    sidMatches.flatMap fun sid =>
      keyMatches.filterMap fun key =>
        let s1 : Result :=
          { raw := sid, rawV2 := sid ++ key, redacted := sid,
            verified := false, verificationError := none }
        if verify then
          match oracle sid key with
          | .reqError => none
          | .transportError => some { s1 with verificationError := some "request error" }
          | .status c =>
            if 200 ≤ c ∧ c < 300 then some { s1 with verified := true }
            else if c = 401 ∨ c = 403 then some s1
            else
              some { s1 with
                verificationError := some ("unexpected HTTP response status " ++ toString c) }
        else some s1
  else []

/-- Chunk data for the witness: a Twilio account SID and an API key with the
`sid` keyword in range. -/
def sampleData : List Char :=
  "sid ACaaaaaaaaaaaaaaaaaaaaaaaaaaaaaaaa bbbbbbbbbbbbbbbbbbbbbbbbbbbbbbbb".data

/-- Oracle for the witness: every verification call answers 200. -/
def sampleOracle : List Char → List Char → HttpOutcome :=
  fun _ _ => .status 200

/-- The single result `fromData` produces on `sampleData` under
`sampleOracle`. -/
def sampleResult : Result :=
  { raw := "ACaaaaaaaaaaaaaaaaaaaaaaaaaaaaaaaa".data,
    rawV2 := ("ACaaaaaaaaaaaaaaaaaaaaaaaaaaaaaaaa" ++
      "bbbbbbbbbbbbbbbbbbbbbbbbbbbbbbbb").data,
    redacted := "ACaaaaaaaaaaaaaaaaaaaaaaaaaaaaaaaa".data,
    verified := true, verificationError := none }

end Detectors

/-- C1: every result `Scanner.FromData` produces with verification requested
comes from some (sid, key) candidate, and its fields follow the outcome of
that candidate's HTTP call: a 2xx status gives `verified = true` with no
verification error; 401/403 gives `verified = false` with no error; any
other status or a transport failure gives `verified = false` with the error
set.  In particular every emitted result with `verified = true` has
`verification_error = none`. -/
theorem claim_C1_twilio_verification_states
    (oracle : List Char → List Char → Detectors.HttpOutcome) (data : List Char) :
    ∀ r ∈ Detectors.fromData true oracle data,
      (r.verified = true → r.verificationError = none) ∧
      ∃ sid key,
        (∀ c, oracle sid key = .status c →
          ((200 ≤ c ∧ c < 300) → r.verified = true ∧ r.verificationError = none) ∧
          ((c = 401 ∨ c = 403) → r.verified = false ∧ r.verificationError = none) ∧
          (¬ (200 ≤ c ∧ c < 300) → ¬ (c = 401 ∨ c = 403) →
            r.verified = false ∧ r.verificationError ≠ none)) ∧
        (oracle sid key = .transportError →
          r.verified = false ∧ r.verificationError ≠ none) := by
  intro r hr
  rw [Detectors.fromData] at hr
  by_cases hid : Detectors.identExists data = true
  · rw [if_pos hid] at hr
    simp only [List.mem_flatMap, List.mem_filterMap] at hr
    obtain ⟨sid, _, key, _, heq⟩ := hr
    simp only [if_true] at heq
    constructor
    · intro hver
      cases hout : oracle sid key with
      | reqError => rw [hout] at heq; simp only [] at heq; exact Option.noConfusion heq
      | transportError =>
        rw [hout] at heq; simp only [] at heq
        rw [← Option.some.inj heq] at hver
        exact Bool.noConfusion hver
      | status c =>
        rw [hout] at heq; simp only [] at heq
        by_cases h2 : 200 ≤ c ∧ c < 300
        · rw [if_pos h2] at heq
          rw [← Option.some.inj heq]
        · rw [if_neg h2] at heq
          by_cases h4 : c = 401 ∨ c = 403
          · rw [if_pos h4] at heq
            rw [← Option.some.inj heq] at hver
            exact Bool.noConfusion hver
          · rw [if_neg h4] at heq
            rw [← Option.some.inj heq] at hver
            exact Bool.noConfusion hver
    · refine ⟨sid, key, ?_, ?_⟩
      · intro c hout
        rw [hout] at heq; simp only [] at heq
        refine ⟨?_, ?_, ?_⟩
        · intro h2
          rw [if_pos h2] at heq
          rw [← Option.some.inj heq]
          exact ⟨rfl, rfl⟩
        · intro h4
          have h2 : ¬ (200 ≤ c ∧ c < 300) := by
            rcases h4 with rfl | rfl <;> omega
          rw [if_neg h2, if_pos h4] at heq
          rw [← Option.some.inj heq]
          exact ⟨rfl, rfl⟩
        · intro h2 h4
          rw [if_neg h2, if_neg h4] at heq
          rw [← Option.some.inj heq]
          exact ⟨rfl, by simp⟩
      · intro hout
        rw [hout] at heq; simp only [] at heq
        rw [← Option.some.inj heq]
        exact ⟨rfl, by simp⟩
  · rw [if_neg hid] at hr
    exact absurd hr (List.not_mem_nil r)

/-- Witness for C1: on `sampleData` under the all-200 oracle, the produced
result is a member of `fromData`'s output, and the theorem applied to it
yields that a verified result carries no verification error. -/
theorem claim_C1_twilio_verification_states_witness :
    Detectors.sampleResult ∈
      Detectors.fromData true Detectors.sampleOracle Detectors.sampleData ∧
    Detectors.sampleResult.verificationError = none := by
  have hmem : Detectors.sampleResult ∈
      Detectors.fromData true Detectors.sampleOracle Detectors.sampleData := by
    decide
  exact ⟨hmem, (claim_C1_twilio_verification_states Detectors.sampleOracle
    Detectors.sampleData Detectors.sampleResult hmem).1 rfl⟩

end TruffleHog
